import Mathlib

/-!
Verification of the dependency-ai-bot core pipeline.

Shallow embedding of the repository's JavaScript sources:
- `dependency-bot.js` (class `DependencyBot`): manifest scanning, version
  normalization and comparison, update-tier classification, manifest rewrite,
  per-repository processing;
- `security-checker.js` (class `SecurityChecker`): the fail-closed security
  verdict mapping around the external advisory oracle.

Modelling conventions:
- JavaScript strings are Lean `String`s; the character-level operations the
  code uses (regex character classes, `split`, `join`, `replace`, `includes`,
  `startsWith`, `trim`, `toLowerCase`) are embedded on `String.data`.
- JavaScript numbers reached by the code are naturals (`parseInt`/`Number`
  applied to digit strings); `Number("")` is `0`, `parseInt("")` is `NaN`
  (which the code immediately stringifies to `"NaN"`).
- Fallible operations (the `semver` library throwing `Invalid Version`, the
  undefined-variable `ReferenceError` in the python catch block) are
  `Except String`.
- External services (npm/PyPI registry lookups, the Anthropic security call,
  the GitHub API) are injected as function parameters, per their interface
  contracts; write-backs (branch, commit, PR) are recorded as emitted data.
- npm manifests are modelled structurally (`PackageJson`), since the code
  round-trips them through `JSON.parse`/`JSON.stringify`; python manifests
  are raw text.
-/

namespace DependencyAiBot

/-! ## JavaScript string primitives -/

/-- JS `String.prototype.includes` (substring test). -/
def strContains (s pat : String) : Bool := decide (pat.data <:+: s.data)

/-- JS `String.prototype.startsWith`. -/
def jsStartsWith (s pat : String) : Bool := pat.data.isPrefixOf s.data

/-- JS `String.prototype.split` with a single-character separator. -/
def splitStr (sep : Char) (s : String) : List String :=
  (s.data.splitOn sep).map String.mk

/-- JS `Array.prototype.join` with a single-character separator. -/
def joinStr (sep : Char) (parts : List String) : String :=
  String.mk (List.intercalate [sep] (parts.map String.data))

/-- JS `v.replace(/[^0-9.]/g, '')`: keep only digits and dots. -/
def stripNonDigitDot (s : String) : String :=
  String.mk (s.data.filter fun c => c.isDigit || c == '.')

/-- Value of a digit string, most significant digit first; on the digit
strings produced by `stripNonDigitDot` this is JS `parseInt`; on the empty
list it is `0`, which is JS `Number("")`. -/
def digitsToNat (cs : List Char) : Nat :=
  cs.foldl (fun n c => n * 10 + (c.toNat - 48)) 0

/-- JS `String.prototype.toLowerCase` (ASCII range, the only one reached). -/
def jsToLower (s : String) : String := String.mk (s.data.map Char.toLower)

/-- JS `String.prototype.trim` (ASCII whitespace, the only kind reached). -/
def jsTrim (s : String) : String :=
  String.mk (((s.data.dropWhile Char.isWhitespace).reverse.dropWhile
    Char.isWhitespace).reverse)

/-- Decimal digits of a natural, least significant first, with explicit
fuel so the definition is structurally recursive (the fuel `n + 1` always
suffices). -/
def natToDecRev : Nat → Nat → List Char
  | 0, _ => []
  | fuel + 1, n =>
    if n < 10 then [Nat.digitChar n]
    else Nat.digitChar (n % 10) :: natToDecRev fuel (n / 10)

/-- Decimal string of a natural (`parseInt(x, 10).toString()`). -/
def natToDec (n : Nat) : String := String.mk (natToDecRev (n + 1) n).reverse

/-! ## Version normalization (`DependencyBot.sanitizeVersion`,
`DependencyBot.makeVersionSemverCompatible`) -/

/-- One component of `sanitizeVersion`: remove leading zeros but keep a
single zero (`part.length > 1 && part.startsWith('0')` branch). -/
def sanitizePart (p : String) : String :=
  match p.data with
  | c :: _ :: _ => if c == '0' then natToDec (digitsToNat p.data) else p
  | _ => p

/-- `DependencyBot.sanitizeVersion`. A falsy (empty) input is returned
unchanged; otherwise strip to digits and dots, then clean each
dot-component of leading zeros. No padding happens here. -/
def sanitizeVersion (version : String) : String :=
  if version = "" then version
  else joinStr '.' ((splitStr '.' (stripNonDigitDot version)).map sanitizePart)

/-- One component of `makeVersionSemverCompatible`:
`parseInt(part, 10).toString()`. The components reaching this point are
digit strings or empty; `parseInt("")` is `NaN`, stringified to `"NaN"`. -/
def partToIntString (p : String) : String :=
  if p = "" then "NaN" else natToDec (digitsToNat p.data)

/-- The `while (processedParts.length < 3) processedParts.push('0')` loop. -/
def padTo3 (l : List String) : List String :=
  l ++ List.replicate (3 - l.length) "0"

/-- `DependencyBot.makeVersionSemverCompatible`. A falsy input yields
`"0.0.0"`; otherwise strip, reparse every component as an integer, and pad
with `"0"` to at least three components. -/
def makeVersionSemverCompatible (version : String) : String :=
  if version = "" then "0.0.0"
  else joinStr '.'
    (padTo3 ((splitStr '.' (stripNonDigitDot version)).map partToIntString))

/-! ## The `semver` library on the strings this program feeds it
(dots-and-digits strings, possibly with `"NaN"` components; never a
prerelease, build metadata, or a leading `v`). -/

/-- A valid numeric identifier: nonempty, digits only, no leading zero. -/
def isNumericId (p : String) : Bool :=
  match p.data with
  | [] => false
  | c :: cs => (c :: cs).all Char.isDigit && (cs.isEmpty || c != '0')

/-- `semver.valid` restricted to the strings this program produces:
exactly three dot-components, each a numeric identifier. -/
def semverValidCore (s : String) : Bool :=
  match splitStr '.' s with
  | [a, b, c] => isNumericId a && isNumericId b && isNumericId c
  | _ => false

/-- The (major, minor, patch) triple of a valid core version string. -/
def verTriple (s : String) : Nat × Nat × Nat :=
  match splitStr '.' s with
  | [a, b, c] => (digitsToNat a.data, digitsToNat b.data, digitsToNat c.data)
  | _ => (0, 0, 0)

/-- Numeric major-then-minor-then-patch strict order. -/
def tripleGt (x y : Nat × Nat × Nat) : Bool :=
  x.1 > y.1 || (x.1 == y.1 && (x.2.1 > y.2.1 || (x.2.1 == y.2.1 && x.2.2 > y.2.2)))

/-- `semver.gt`: throws `Invalid Version` unless both arguments parse. -/
def semverGt (a b : String) : Except String Bool :=
  if semverValidCore a && semverValidCore b then
    .ok (tripleGt (verTriple a) (verTriple b))
  else .error "Invalid Version"

/-! ## Update-tier classification (`DependencyBot.getUpdateType`) -/

/-- `sanitized.split('.').map(Number)`: the sanitized strings contain only
digits and dots, so each component is a digit string or empty and `Number`
yields its value (`0` for empty). -/
def numComponents (s : String) : List Nat :=
  (splitStr '.' s).map fun p => digitsToNat p.data

/-- `DependencyBot.getUpdateType`. Both branches compare major, then minor,
and otherwise answer `patch`. For `String` inputs nothing in the body can
throw, so the `catch` branch returning `'unknown'` is unreachable. -/
def getUpdateType (current latest : String) : String :=
  let sanitizedCurrent := sanitizeVersion current
  let sanitizedLatest := sanitizeVersion latest
  if semverValidCore sanitizedCurrent && semverValidCore sanitizedLatest then
    if (verTriple sanitizedLatest).1 > (verTriple sanitizedCurrent).1 then "major"
    else if (verTriple sanitizedLatest).2.1 > (verTriple sanitizedCurrent).2.1 then "minor"
    else "patch"
  else
    let currentParts := numComponents sanitizedCurrent
    let latestParts := numComponents sanitizedLatest
    if latestParts.getD 0 0 > currentParts.getD 0 0 then "major"
    else if latestParts.getD 1 0 > currentParts.getD 1 0 then "minor"
    else "patch"

/-! ## Security checker (`security-checker.js`) -/

/-- The verdict returned by `SecurityChecker.checkVulnerability`, per its
documented interface `{safe: boolean, details: string}`. (The heuristic
CVE/URL/severity extraction that decorates the audit report is not
modelled; no claim depends on those fields.) -/
structure SecurityVerdict where
  safe : Bool
  details : String
deriving DecidableEq, Repr

/-- The Anthropic messages call made by `checkVulnerability`, at its
interface boundary: for a (package, current, new, ecosystem) transition it
returns the response text or throws. -/
def SecOracle := String → String → String → String → Except String String

/-- `SecurityChecker.parseSecurityResponse`: the safe/unsafe heuristic over
the lowercased response text. -/
def parseSecurityResponse (responseText : String) : SecurityVerdict :=
  let lowerText := jsToLower responseText
  let isSafe :=
    (strContains lowerText "safe" && !strContains lowerText "unsafe") ||
      (!strContains lowerText "vulnerabilit" && !strContains lowerText "cve-" &&
        !strContains lowerText "security issue" && !strContains lowerText "advisory")
  { safe := isSafe, details := responseText }

/-- `SecurityChecker.checkVulnerability`: call the oracle and parse its
text; an oracle exception is caught and mapped to an unsafe verdict with a
diagnostic note. The function always returns a verdict. -/
def checkVulnerability (oracle : SecOracle)
    (packageName currentVersion newVersion ecosystem : String) : SecurityVerdict :=
  match oracle packageName currentVersion newVersion ecosystem with
  | .ok text => parseSecurityResponse text
  | .error msg =>
    { safe := false
      details := "Error checking security: " ++ msg ++ ". Skipping update as a precaution." }

/-! ## Bot data model (`dependency-bot.js`) -/

/-- One entry of the `outdatedDeps` array built by
`DependencyBot.checkDependencies`. -/
structure DepInfo where
  name : String
  currentVersion : String
  latestVersion : String
  type : String
  updateType : String
  securityCheck : Option SecurityVerdict := none
deriving DecidableEq, Repr

/-- The parsed `package.json` object, as far as the bot reads and writes
it: the `dependencies` and `devDependencies` maps in insertion order.
`JSON.parse` of a JSON object cannot produce duplicate keys. -/
structure PackageJson where
  dependencies : List (String × String) := []
  devDependencies : List (String × String) := []
deriving DecidableEq, Repr

/-- A manifest's content. npm manifests are structural because the code
round-trips them through `JSON.parse`/`JSON.stringify`; python manifests
are the raw text. -/
inductive ManifestContent where
  | npm (packageJson : PackageJson)
  | python (content : String)
deriving DecidableEq, Repr

/-- A manifest found by `getPackageFiles` (path plus typed content). -/
structure PackageFile where
  path : String
  content : ManifestContent
deriving DecidableEq, Repr

/-- The object spread `{...packageJson.dependencies,
...packageJson.devDependencies}`: the first object's keys in order (values
overridden by the second on a shared key), then the second object's new
keys in order. -/
def mergeDeps (a b : List (String × String)) : List (String × String) :=
  (a.map fun kv => (kv.1, (List.lookup kv.1 b).getD kv.2)) ++
    b.filter fun kv => (List.lookup kv.1 a).isNone

/-- `packageJson.dependencies?.[name] ? 'dependency' : 'devDependency'`. -/
def npmDepType (p : PackageJson) (name : String) : String :=
  match List.lookup name p.dependencies with
  | some v => if v = "" then "devDependency" else "dependency"
  | none => "devDependency"

/-! ## `DependencyBot.checkDependencies` -/

/-- The npm branch of `checkDependencies`: one iteration per merged
`[name, version]` entry. This branch has no try/catch, so a `semver.gt`
throw propagates out of the whole scan. -/
def npmDepsLoop (dryRun : Bool) (npmOracle : String → Option String)
    (sec : SecOracle) (p : PackageJson) :
    List (String × String) → Except String (List DepInfo)
  | [] => .ok []
  | (name, version) :: rest =>
    if strContains version "git" || jsStartsWith version "file:" then
      npmDepsLoop dryRun npmOracle sec p rest
    else
      match npmOracle name with
      | none => npmDepsLoop dryRun npmOracle sec p rest
      | some latestVersion =>
        if latestVersion = "" then npmDepsLoop dryRun npmOracle sec p rest
        else
          let cleanVersion := stripNonDigitDot version
          match semverGt (sanitizeVersion latestVersion) (sanitizeVersion cleanVersion) with
          | .error e => .error e
          | .ok gt =>
            if gt then
              let depInfo : DepInfo :=
                { name := name
                  currentVersion := version
                  latestVersion := latestVersion
                  type := npmDepType p name
                  updateType := getUpdateType cleanVersion latestVersion
                  securityCheck :=
                    if dryRun then none
                    else some (checkVulnerability sec name cleanVersion latestVersion "npm") }
              (npmDepsLoop dryRun npmOracle sec p rest).map (depInfo :: ·)
            else npmDepsLoop dryRun npmOracle sec p rest

/-- Character class `[a-zA-Z0-9_.-]` of the requirements-line regex. -/
def isNameChar (c : Char) : Bool :=
  c.isAlpha || c.isDigit || c == '_' || c == '.' || c == '-'

/-- Character class `[<>=!~]` of the requirements-line regex. -/
def isOpChar (c : Char) : Bool :=
  c == '<' || c == '>' || c == '=' || c == '!' || c == '~'

/-- The regex `^([a-zA-Z0-9_.-]+)([<>=!~]+)([a-zA-Z0-9_.-]+)` applied to
one requirements line. The two character classes are disjoint, so the
greedy matches are exactly the maximal runs and no backtracking can
succeed where those fail. -/
def matchReqLine (line : String) : Option (String × String × String) :=
  let nameCs := line.data.takeWhile isNameChar
  let rest := line.data.dropWhile isNameChar
  let opCs := rest.takeWhile isOpChar
  let verCs := (rest.dropWhile isOpChar).takeWhile isNameChar
  if nameCs.isEmpty || opCs.isEmpty || verCs.isEmpty then none
  else some (String.mk nameCs, String.mk opCs, String.mk verCs)

/-- The python branch of `checkDependencies`: one iteration per line. Its
catch block logs using the variable `cleanVersion`, which is not defined
in this branch, so in this strict-mode module a caught comparison failure
re-raises as a `ReferenceError` and aborts the scan. -/
def pyDepsLoop (dryRun : Bool) (pypiOracle : String → Option String)
    (sec : SecOracle) : List String → Except String (List DepInfo)
  | [] => .ok []
  | line :: rest =>
    if jsTrim line = "" || jsStartsWith line "#" then
      pyDepsLoop dryRun pypiOracle sec rest
    else
      match matchReqLine line with
      | none => pyDepsLoop dryRun pypiOracle sec rest
      | some (name, operator, version) =>
        match pypiOracle name with
        | none => pyDepsLoop dryRun pypiOracle sec rest
        | some latestVersion =>
          if latestVersion = "" then pyDepsLoop dryRun pypiOracle sec rest
          else
            match semverGt (makeVersionSemverCompatible latestVersion)
                (makeVersionSemverCompatible version) with
            | .error _ => .error "ReferenceError: cleanVersion is not defined"
            | .ok gt =>
              if gt then
                let depInfo : DepInfo :=
                  { name := name
                    currentVersion := operator ++ version
                    latestVersion := latestVersion
                    type := "dependency"
                    updateType := getUpdateType version latestVersion
                    securityCheck :=
                      if dryRun then none
                      else some (checkVulnerability sec name version latestVersion "pypi") }
                (pyDepsLoop dryRun pypiOracle sec rest).map (depInfo :: ·)
              else pyDepsLoop dryRun pypiOracle sec rest

/-- `DependencyBot.checkDependencies`, with the registry lookups injected
per their oracle contract (`null` on failure). -/
def checkDependencies (dryRun : Bool) (npmOracle pypiOracle : String → Option String)
    (sec : SecOracle) (file : PackageFile) : Except String (List DepInfo) :=
  match file.content with
  | .npm p => npmDepsLoop dryRun npmOracle sec p (mergeDeps p.dependencies p.devDependencies)
  | .python content => pyDepsLoop dryRun pypiOracle sec (splitStr '\n' content)

/-! ## `DependencyBot.updateDependenciesInFile` -/

/-- The regex `/^[^0-9]*/`: the leading run of non-digit characters of the
declared version expression (its range operator, e.g. `^` or `~`). -/
def leadingNonDigits (s : String) : String :=
  String.mk (s.data.takeWhile fun c => !c.isDigit)

/-- Truthiness of `obj?.[name]` for a string-valued JS object lookup. -/
def truthyLookup (l : List (String × String)) (k : String) : Bool :=
  match List.lookup k l with
  | some v => v != ""
  | none => false

/-- Assignment to an existing key of a JS object: the value changes in
place, the insertion order is unaffected. -/
def setKey (l : List (String × String)) (k v : String) : List (String × String) :=
  l.map fun kv => if kv.1 = k then (k, v) else kv

/-- One iteration of the npm rewrite loop of `updateDependenciesInFile`:
guarded by the truthiness of the present entry in the category given by
the record's `type`, the entry is set to the original leading prefix
operator plus the new bare version. -/
def applyNpmDep (p : PackageJson) (dep : DepInfo) : PackageJson :=
  let newVal := leadingNonDigits dep.currentVersion ++ dep.latestVersion
  if dep.type == "dependency" && truthyLookup p.dependencies dep.name then
    { p with dependencies := setKey p.dependencies dep.name newVal }
  else if dep.type == "devDependency" && truthyLookup p.devDependencies dep.name then
    { p with devDependencies := setKey p.devDependencies dep.name newVal }
  else p

/-- One line of the python rewrite loop: a matched line whose name has an
approved update is replaced by the name, the original operator, and the
new version (text after the matched version is not kept). -/
def rewriteLine (outdatedDeps : List DepInfo) (line : String) : String :=
  if jsTrim line = "" || jsStartsWith line "#" then line
  else
    match matchReqLine line with
    | none => line
    | some (name, operator, _) =>
      match outdatedDeps.find? (fun d => d.name == name) with
      | some dep => name ++ operator ++ dep.latestVersion
      | none => line

/-- `DependencyBot.updateDependenciesInFile`. -/
def updateDependenciesInFile (file : PackageFile) (outdatedDeps : List DepInfo) :
    ManifestContent :=
  match file.content with
  | .npm p => .npm (outdatedDeps.foldl applyNpmDep p)
  | .python content =>
    .python (joinStr '\n' ((splitStr '\n' content).map (rewriteLine outdatedDeps)))

/-! ## `DependencyBot.processRepository` -/

/-- The truthiness filter `outdatedDeps.filter(dep => dep.securityCheck?.safe)`. -/
def depIsSafe (d : DepInfo) : Bool :=
  match d.securityCheck with
  | some v => v.safe
  | none => false

/-- What `processRepository` did for one manifest: the outdated list, the
subset proposed in a pull request (every outdated dependency in dry-run
mode, else the safe ones), and the content committed when a PR is made. -/
structure FileResult where
  file : PackageFile
  outdated : List DepInfo
  proposed : List DepInfo
  committed : Option ManifestContent
deriving DecidableEq, Repr

/-- One `processRepository` loop iteration: `checkDependencies`, the
dry-run/safety filter, and `createUpdatePR` (branch, commit of the
rewritten manifest, pull request) when the filtered list is nonempty. -/
def runFile (dryRun : Bool) (npmOracle pypiOracle : String → Option String)
    (sec : SecOracle) (f : PackageFile) : Except String FileResult :=
  match checkDependencies dryRun npmOracle pypiOracle sec f with
  | .error e => .error e
  | .ok outdated =>
    let safeDeps := if dryRun then outdated else outdated.filter depIsSafe
    .ok { file := f
          outdated := outdated
          proposed := safeDeps
          committed :=
            if safeDeps.isEmpty then none
            else some (updateDependenciesInFile f safeDeps) }

/-- The `for (const file of packageFiles)` loop; an exception stops it
(and is caught at the repository level). -/
def runFiles (dryRun : Bool) (npmOracle pypiOracle : String → Option String)
    (sec : SecOracle) : List PackageFile → List FileResult × Option String
  | [] => ([], none)
  | f :: rest =>
    match runFile dryRun npmOracle pypiOracle sec f with
    | .error e => ([], some e)
    | .ok r =>
      let p := runFiles dryRun npmOracle pypiOracle sec rest
      (r :: p.1, p.2)

/-- `DependencyBot.processRepository` over one repository snapshot: the
per-manifest results and the dependency list handed to
`SecurityChecker.generateReport` (a report is generated only when nothing
threw, some dependency was outdated, and the bot is not in dry-run mode). -/
def processRepository (dryRun : Bool) (npmOracle pypiOracle : String → Option String)
    (sec : SecOracle) (files : List PackageFile) :
    List FileResult × Option (List DepInfo) :=
  let p := runFiles dryRun npmOracle pypiOracle sec files
  let allDependencies := (p.1.map FileResult.outdated).flatten
  (p.1,
    if p.2.isNone && !allDependencies.isEmpty && !dryRun then some allDependencies
    else none)

/-- Modelled from the spec (section 4.4, steps 1 to 4): strip to digits and
dots, read each dot-component as a number, and pad to the
(major, minor, patch) triple, an empty sanitization giving `(0, 0, 0)`.
Used only to state what claims ask of the code's normalization. -/
def specNormTriple (v : String) : Nat × Nat × Nat :=
  let parts := (splitStr '.' (stripNonDigitDot v)).map fun p => digitsToNat p.data
  (parts.getD 0 0, parts.getD 1 0, parts.getD 2 0)

/-- Verification scaffolding: the effect of one npm rewrite iteration on
the value of a single manifest entry with key `k` in the category `cat`
(assignment happens only when the record targets this category and key
and the present value is truthy). -/
def entryStep (cat : String) (d : DepInfo) (k v : String) : String :=
  if (d.type == cat && d.name == k) && v != "" then
    leadingNonDigits d.currentVersion ++ d.latestVersion
  else v

/-- Verification scaffolding: the accumulated effect of the npm rewrite
loop on the value of a single manifest entry. -/
def entryChain (cat : String) (ds : List DepInfo) (k v : String) : String :=
  ds.foldl (fun w d => entryStep cat d k w) v

/-! ## Theorems -/

/-- C2: the security check is fail-closed and total. `checkVulnerability`
always returns a verdict (it is a total function of the oracle outcome);
when the oracle throws, the verdict has `safe = false`; and
`parseSecurityResponse` answers `safe = false` on any response text that
contains an advisory identifier (the `cve-` pattern of the code) and no
explicit safety affirmation (the code's affirmation being: contains
"safe" and not "unsafe"). -/
theorem checkVulnerability_fail_closed :
    (∀ (oracle : SecOracle) (n c v e msg : String),
        oracle n c v e = .error msg → (checkVulnerability oracle n c v e).safe = false) ∧
    (∀ t : String,
        strContains (jsToLower t) "cve-" = true →
        ¬(strContains (jsToLower t) "safe" = true ∧ strContains (jsToLower t) "unsafe" = false) →
        (parseSecurityResponse t).safe = false) := by
  constructor
  · intro oracle n c v e msg h
    unfold checkVulnerability
    rw [h]
  · intro t hcve haff
    unfold parseSecurityResponse
    cases hA : strContains (jsToLower t) "safe" <;>
      cases hB : strContains (jsToLower t) "unsafe" <;>
        simp_all

/-- Witness for C2 at a concrete throwing oracle and a concrete advisory
text. -/
theorem checkVulnerability_fail_closed_witness :
    (checkVulnerability (fun _ _ _ _ => .error "timeout")
        "lodash" "4.17.20" "4.17.21" "npm").safe = false ∧
    (parseSecurityResponse "Known CVE-2021-44228 advisory impacts this package").safe = false :=
  ⟨checkVulnerability_fail_closed.1 _ "lodash" "4.17.20" "4.17.21" "npm" "timeout" rfl,
   checkVulnerability_fail_closed.2 _ (by decide) (by decide)⟩

/-- C3: contrary to the claim (and to the tool's own `--dry-run`
documentation, "Run without creating PRs (test mode)"), dry-run mode does
write: `createUpdatePR` is not guarded by the dry-run flag, so for a
manifest with one outdated dependency the dry-run run still creates a
branch, commits a rewritten manifest, and opens a pull request carrying
every outdated dependency; only the audit report is suppressed. -/
theorem dryRun_creates_pull_request :
    (processRepository true (fun _ => some "2.0.0") (fun _ => none)
          (fun _ _ _ _ => .error "oracle never invoked in dry run")
          [⟨"package.json", .npm ⟨[("b", "^1.0.0")], []⟩⟩]).1.map
        FileResult.committed =
      [some (.npm ⟨[("b", "^2.0.0")], []⟩)] ∧
    (processRepository true (fun _ => some "2.0.0") (fun _ => none)
          (fun _ _ _ _ => .error "oracle never invoked in dry run")
          [⟨"package.json", .npm ⟨[("b", "^1.0.0")], []⟩⟩]).2 = none :=
  ⟨rfl, rfl⟩

/-- C10: a version-comparison failure on one dependency aborts the whole
manifest scan instead of skipping that dependency. In the python branch
the catch block itself raises (`cleanVersion` is not defined there), and
the npm branch has no handler at all, so in both ecosystems the sibling
dependency `bbb` (resp. `b`), which has a well-formed pending update, is
lost. -/
theorem comparison_failure_aborts_scan :
    checkDependencies false (fun _ => none)
        (fun n => if n = "aaa" then some "x" else some "2.0.0")
        (fun _ _ _ _ => .ok "No known vulnerabilities were found. SAFE.")
        ⟨"requirements.txt", .python "aaa==1.0.0\nbbb==1.0.0"⟩ =
      .error "ReferenceError: cleanVersion is not defined" ∧
    checkDependencies false (fun n => if n = "a" then some "1.3" else some "2.0.0")
        (fun _ => none)
        (fun _ _ _ _ => .ok "No known vulnerabilities were found. SAFE.")
        ⟨"package.json", .npm ⟨[("a", "1.2"), ("b", "1.0.0")], []⟩⟩ =
      .error "Invalid Version" :=
  ⟨rfl, rfl⟩

/-- C4 counterexample: `sanitizeVersion` performs no right-padding
(`"1.2"` stays `"1.2"`, not `"1.2.0"`) and maps the empty string to
itself, not to `"0.0.0"`; `makeVersionSemverCompatible` maps an input with
no digits to `"NaN.0.0"`, not `"0.0.0"`, and keeps a fourth component
instead of producing exactly three. -/
theorem normalization_padding_cex :
    sanitizeVersion "1.2" = "1.2" ∧ sanitizeVersion "1.2" ≠ "1.2.0" ∧
    sanitizeVersion "" = "" ∧ sanitizeVersion "" ≠ "0.0.0" ∧
    makeVersionSemverCompatible "abc" = "NaN.0.0" ∧
    makeVersionSemverCompatible "abc" ≠ "0.0.0" ∧
    makeVersionSemverCompatible "1.2.3.4" = "1.2.3.4" :=
  ⟨rfl, by decide, rfl, by decide, rfl, by decide, rfl⟩

/-- C5 counterexample: for the npm dependency `p` declared as `"1.2"` with
registry latest `"1.3"`, the claim's normalized ordering says the
dependency is outdated (`(1,3,0) > (1,2,0)`), but the scan produces no
update record at all: the npm branch feeds the unpadded two-component
strings to `semver.gt`, which throws. -/
theorem outdated_comparison_throws_cex :
    checkDependencies false (fun _ => some "1.3") (fun _ => none)
        (fun _ _ _ _ => .ok "SAFE")
        ⟨"package.json", .npm ⟨[("p", "1.2")], []⟩⟩ = .error "Invalid Version" ∧
    tripleGt (specNormTriple "1.3") (specNormTriple "1.2") = true :=
  ⟨rfl, by decide⟩

/-- C7 counterexample: python manifest rewriting is not idempotent for
every approved-update set. With an approved latest version containing a
newline, the first rewrite splices a new line into the manifest and the
second rewrite duplicates it. -/
theorem rewrite_not_idempotent_cex :
    (let d : DepInfo :=
      { name := "pkg", currentVersion := "==1.0", latestVersion := "2.0\nextra==1",
        type := "dependency", updateType := "major", securityCheck := none }
     let f : PackageFile := ⟨"requirements.txt", .python "pkg==1.0"⟩
     updateDependenciesInFile ⟨f.path, updateDependenciesInFile f [d]⟩ [d] ≠
       updateDependenciesInFile f [d]) := by
  decide

/-- C8 counterexample: the python rewrite does not replace only the
version segment of a matched approved line; it rebuilds the line as
name + operator + new version, deleting everything after the matched
version (here the trailing comment `# pin`). -/
theorem rewrite_drops_trailing_text_cex :
    (let d : DepInfo :=
      { name := "flask", currentVersion := "==1.0.0", latestVersion := "1.2.0",
        type := "dependency", updateType := "minor", securityCheck := none }
     updateDependenciesInFile ⟨"requirements.txt", .python "flask==1.0.0 # pin"⟩ [d] =
        .python "flask==1.2.0" ∧
     ManifestContent.python "flask==1.2.0" ≠ .python "flask==1.2.0 # pin") := by
  decide

/-! ### Helper lemmas: decimal printing, split/join, sanitization -/

theorem mk_data (s : String) : String.mk s.data = s := rfl

theorem digitChar_isDigit {k : Nat} (h : k < 10) : (Nat.digitChar k).isDigit = true := by
  interval_cases k <;> decide

theorem digitChar_val {k : Nat} (h : k < 10) : (Nat.digitChar k).toNat - 48 = k := by
  interval_cases k <;> decide

theorem digitsToNat_append (cs : List Char) (c : Char) :
    digitsToNat (cs ++ [c]) = digitsToNat cs * 10 + (c.toNat - 48) := by
  unfold digitsToNat
  rw [List.foldl_append]
  rfl

theorem natToDecRev_val (fuel : Nat) :
    ∀ n, n < 10 ^ fuel → digitsToNat (natToDecRev fuel n).reverse = n := by
  induction fuel with
  | zero =>
    intro n h
    have hn : n = 0 := by simpa using h
    subst hn; rfl
  | succ fuel ih =>
    intro n h
    by_cases h10 : n < 10
    · simp only [natToDecRev, if_pos h10, List.reverse_cons, List.reverse_nil,
        List.nil_append]
      show digitsToNat ([] ++ [Nat.digitChar n]) = n
      rw [digitsToNat_append]
      simpa [digitsToNat] using digitChar_val h10
    · simp only [natToDecRev, if_neg h10, List.reverse_cons]
      rw [digitsToNat_append, ih (n / 10) ?_, digitChar_val (Nat.mod_lt _ (by decide))]
      · omega
      · rw [Nat.div_lt_iff_lt_mul (by decide : 0 < 10)]
        calc n < 10 ^ (fuel + 1) := h
        _ = 10 ^ fuel * 10 := by rw [pow_succ]

theorem natToDec_val (n : Nat) : digitsToNat (natToDec n).data = n := by
  have hfuel : n < 10 ^ (n + 1) :=
    lt_of_lt_of_le (Nat.lt_two_pow n)
      (Nat.pow_le_pow_left (by decide) (n + 1) |>.trans' (Nat.pow_le_pow_right (by decide) (Nat.le_succ n)))
  simpa [natToDec] using natToDecRev_val (n + 1) n hfuel

theorem natToDecRev_digits (fuel : Nat) :
    ∀ n c, c ∈ natToDecRev fuel n → c.isDigit = true := by
  induction fuel with
  | zero => intro n c hc; simp [natToDecRev] at hc
  | succ fuel ih =>
    intro n c hc
    by_cases h10 : n < 10
    · simp only [natToDecRev, if_pos h10, List.mem_singleton] at hc
      subst hc; exact digitChar_isDigit h10
    · simp only [natToDecRev, if_neg h10, List.mem_cons] at hc
      rcases hc with h | h
      · subst h; exact digitChar_isDigit (Nat.mod_lt _ (by decide))
      · exact ih _ _ h

theorem natToDec_digits (n : Nat) : ∀ c ∈ (natToDec n).data, c.isDigit = true := by
  intro c hc
  have : c ∈ natToDecRev (n + 1) n := by simpa [natToDec] using hc
  exact natToDecRev_digits (n + 1) n c this

theorem not_mem_splitOn (sep : Char) (cs : List Char) :
    ∀ l ∈ cs.splitOn sep, sep ∉ l := by
  induction cs with
  | nil =>
    intro l hl
    simp only [List.splitOn, List.splitOnP_nil, List.mem_singleton] at hl
    subst hl; simp
  | cons c cs ih =>
    intro l hl
    simp only [List.splitOn, List.splitOnP_cons] at hl
    by_cases hc : (c == sep) = true
    · rw [if_pos hc] at hl
      rcases List.mem_cons.mp hl with h | h
      · subst h; simp
      · exact ih l h
    · rw [if_neg hc] at hl
      cases hsplit : cs.splitOnP (· == sep) with
      | nil => exact absurd hsplit (List.splitOnP_ne_nil _ _)
      | cons hd tl =>
        rw [hsplit, List.modifyHead] at hl
        rcases List.mem_cons.mp hl with h | h
        · subst h
          intro hmem
          rcases List.mem_cons.mp hmem with h1 | h1
          · exact hc (by rw [h1]; exact beq_self_eq_true c)
          · exact ih hd (by rw [List.splitOn, hsplit]; exact List.mem_cons_self _ _) h1
        · exact ih l (by rw [List.splitOn, hsplit]; exact List.mem_cons_of_mem _ h)

theorem mem_splitStr (sep : Char) (s : String) :
    ∀ p ∈ splitStr sep s, sep ∉ p.data := by
  intro p hp
  unfold splitStr at hp
  rcases List.mem_map.mp hp with ⟨l, hl, rfl⟩
  simpa using not_mem_splitOn sep s.data l hl

theorem splitStr_ne_nil (sep : Char) (s : String) : splitStr sep s ≠ [] := by
  unfold splitStr
  simp [List.splitOn, List.splitOnP_ne_nil]

theorem splitStr_joinStr (sep : Char) (parts : List String)
    (h : ∀ p ∈ parts, sep ∉ p.data) (hne : parts ≠ []) :
    splitStr sep (joinStr sep parts) = parts := by
  unfold splitStr joinStr
  have hd : (String.mk (List.intercalate [sep] (parts.map String.data))).data
      = List.intercalate [sep] (parts.map String.data) := rfl
  rw [hd, List.splitOn_intercalate _ sep ?_ ?_]
  · rw [List.map_map]
    exact List.map_id'' (fun p => rfl) parts
  · intro l hl
    rcases List.mem_map.mp hl with ⟨p, hp, rfl⟩
    exact h p hp
  · simpa using hne

theorem sanitizePart_value (p : String) :
    digitsToNat (sanitizePart p).data = digitsToNat p.data := by
  unfold sanitizePart
  split
  · split
    · exact natToDec_val _
    · rfl
  · rfl

theorem sanitizePart_no_dot (p : String) (h : '.' ∉ p.data) :
    '.' ∉ (sanitizePart p).data := by
  unfold sanitizePart
  split
  · split
    · intro hmem
      have := natToDec_digits _ _ hmem
      simp at this
    · exact h
  · exact h

theorem numComponents_sanitizeVersion (v : String) :
    numComponents (sanitizeVersion v) =
      (splitStr '.' (stripNonDigitDot v)).map fun p => digitsToNat p.data := by
  unfold sanitizeVersion
  by_cases hv : v = ""
  · subst hv; rfl
  · rw [if_neg hv]
    unfold numComponents
    rw [splitStr_joinStr '.' _ ?_ ?_, List.map_map]
    · apply List.map_congr_left
      intro p _
      exact sanitizePart_value p
    · intro p hp
      rcases List.mem_map.mp hp with ⟨q, hq, rfl⟩
      exact sanitizePart_no_dot q (mem_splitStr '.' _ q hq)
    · simp [splitStr_ne_nil]

theorem verTriple_of_valid (s : String) (h : semverValidCore s = true) :
    verTriple s =
      ((numComponents s).getD 0 0, (numComponents s).getD 1 0,
        (numComponents s).getD 2 0) := by
  unfold semverValidCore at h
  unfold verTriple numComponents
  rcases hs : splitStr '.' s with _ | ⟨a, _ | ⟨b, _ | ⟨c, _ | d⟩⟩⟩ <;>
    simp [hs] at h ⊢

/-- C6: the update tier is classified from the normalized triples:
`major` whenever the normalized latest major exceeds the normalized
current major (regardless of minor and patch), else `minor` when the
minor exceeds, else `patch`. For string inputs nothing in the body can
throw, so the `unknown` fallback is never produced (an irrecoverable
parse failure cannot occur, which leaves the claim's `unknown` clause
vacuous); dependencies stay update-eligible regardless of the tier. -/
theorem getUpdateType_tier (current latest : String) :
    (getUpdateType current latest =
      if (specNormTriple latest).1 > (specNormTriple current).1 then "major"
      else if (specNormTriple latest).2.1 > (specNormTriple current).2.1 then "minor"
      else "patch") ∧
    getUpdateType current latest ≠ "unknown" := by
  have heq : getUpdateType current latest =
      if (specNormTriple latest).1 > (specNormTriple current).1 then "major"
      else if (specNormTriple latest).2.1 > (specNormTriple current).2.1 then "minor"
      else "patch" := by
    have hc := numComponents_sanitizeVersion current
    have hl := numComponents_sanitizeVersion latest
    unfold getUpdateType specNormTriple
    by_cases hval : (semverValidCore (sanitizeVersion current) &&
        semverValidCore (sanitizeVersion latest)) = true
    · rcases Bool.and_eq_true _ _ |>.mp hval with ⟨hv1, hv2⟩
      simp only [hval, if_true, verTriple_of_valid _ hv1, verTriple_of_valid _ hv2,
        hc, hl]
    · simp only [Bool.not_eq_true] at hval
      simp only [hval, Bool.false_eq_true, if_false, hc, hl]
  refine ⟨heq, ?_⟩
  rw [heq]
  split
  · decide
  · split
    · decide
    · decide

/-! ### Non-registry dependencies (C9) -/

theorem npmDepsLoop_no_nonregistry (dryRun : Bool) (npmOracle : String → Option String)
    (sec : SecOracle) (p : PackageJson) :
    ∀ (entries : List (String × String)) (l : List DepInfo),
      npmDepsLoop dryRun npmOracle sec p entries = .ok l →
      ∀ d ∈ l, strContains d.currentVersion "git" = false ∧
        jsStartsWith d.currentVersion "file:" = false := by
  intro entries
  induction entries with
  | nil =>
    intro l h d hd
    simp only [npmDepsLoop] at h
    cases h
    simp at hd
  | cons e rest ih =>
    intro l h d hd
    obtain ⟨name, version⟩ := e
    simp only [npmDepsLoop] at h
    by_cases hskip : (strContains version "git" || jsStartsWith version "file:") = true
    · rw [if_pos hskip] at h
      exact ih l h d hd
    · rw [if_neg hskip] at h
      simp only [Bool.or_eq_true, not_or, Bool.not_eq_true] at hskip
      cases horacle : npmOracle name with
      | none =>
        rw [horacle] at h
        exact ih l h d hd
      | some lv =>
        simp only [horacle] at h
        by_cases hlv : lv = ""
        · rw [if_pos hlv] at h
          exact ih l h d hd
        · rw [if_neg hlv] at h
          cases hgt : semverGt (sanitizeVersion lv)
              (sanitizeVersion (stripNonDigitDot version)) with
          | error e =>
            simp only [hgt] at h
            cases h
          | ok b =>
            simp only [hgt] at h
            cases b with
            | false =>
              simp only [Bool.false_eq_true, if_false] at h
              exact ih l h d hd
            | true =>
              simp only [if_true] at h
              cases hrest : npmDepsLoop dryRun npmOracle sec p rest with
              | error e =>
                simp only [hrest, Except.map] at h
                cases h
              | ok tl =>
                simp only [hrest, Except.map, Except.ok.injEq] at h
                subst h
                rcases List.mem_cons.mp hd with rfl | hmem
                · exact ⟨hskip.1, hskip.2⟩
                · exact ih tl hrest d hmem

/-- C9: an npm dependency whose declared expression contains a
source-control locator token (the code's test: the substring `git`) or a
local filesystem reference (a declared expression starting with `file:`)
is skipped by `checkDependencies` and never appears in any update record:
every record of a successful npm scan has a declared expression free of
both markers. -/
theorem nonregistry_deps_skipped (dryRun : Bool)
    (npmOracle pypiOracle : String → Option String) (sec : SecOracle)
    (path : String) (p : PackageJson) (l : List DepInfo)
    (h : checkDependencies dryRun npmOracle pypiOracle sec ⟨path, .npm p⟩ = .ok l) :
    ∀ d ∈ l, strContains d.currentVersion "git" = false ∧
      jsStartsWith d.currentVersion "file:" = false :=
  npmDepsLoop_no_nonregistry dryRun npmOracle sec p
    (mergeDeps p.dependencies p.devDependencies) l h

/-- Witness for C9: a manifest declaring a git dependency, a `file:`
dependency, and one registry dependency; only the registry one survives,
and the theorem applies to it. -/
theorem nonregistry_deps_skipped_witness :
    strContains "^1.0.0" "git" = false ∧ jsStartsWith "^1.0.0" "file:" = false :=
  nonregistry_deps_skipped true
    (fun n => if n = "b" then some "2.0.0" else some "9.9.9") (fun _ => none)
    (fun _ _ _ _ => .error "unavailable") "package.json"
    ⟨[("a", "git+https://host/repo"), ("c", "file:../local"), ("b", "^1.0.0")], []⟩
    [{ name := "b", currentVersion := "^1.0.0", latestVersion := "2.0.0",
       type := "dependency", updateType := "major", securityCheck := none }] rfl
    { name := "b", currentVersion := "^1.0.0", latestVersion := "2.0.0",
      type := "dependency", updateType := "major", securityCheck := none }
    (List.mem_singleton.mpr rfl)

/-! ### Safe gating in non-dry-run mode (C1) -/

theorem runFiles_spec (dryRun : Bool) (npmOracle pypiOracle : String → Option String)
    (sec : SecOracle) :
    ∀ files : List PackageFile,
      ∀ r ∈ (runFiles dryRun npmOracle pypiOracle sec files).1,
        checkDependencies dryRun npmOracle pypiOracle sec r.file = .ok r.outdated ∧
        r.proposed = (if dryRun then r.outdated else r.outdated.filter depIsSafe) ∧
        r.committed = (if r.proposed.isEmpty then none
          else some (updateDependenciesInFile r.file r.proposed)) := by
  intro files
  induction files with
  | nil => intro r hr; simp [runFiles] at hr
  | cons f rest ih =>
    intro r hr
    simp only [runFiles] at hr
    cases hrun : runFile dryRun npmOracle pypiOracle sec f with
    | error e =>
      rw [hrun] at hr
      simp at hr
    | ok r0 =>
      rw [hrun] at hr
      simp only [List.mem_cons] at hr
      rcases hr with rfl | hmem
      · unfold runFile at hrun
        cases hck : checkDependencies dryRun npmOracle pypiOracle sec f with
        | error e => rw [hck] at hrun; cases hrun
        | ok outdated =>
          rw [hck] at hrun
          cases hrun
          refine ⟨hck, rfl, rfl⟩
      · exact ih r hmem

/-- C1: in non-dry-run mode, for every repository run, the dependency set
proposed in a pull request (and handed to the manifest rewrite for the
committed content) is exactly the subset of that manifest's outdated
dependencies whose security verdict has `safe = true`; every proposed
dependency carries such a verdict (so unchecked or unsafe ones are never
committed or proposed), and every outdated dependency — safe or not —
appears in the generated audit report. -/
theorem processRepository_safe_gating (npmOracle pypiOracle : String → Option String)
    (sec : SecOracle) (files : List PackageFile) :
    ∀ r ∈ (processRepository false npmOracle pypiOracle sec files).1,
      r.proposed = r.outdated.filter depIsSafe ∧
      (∀ d ∈ r.proposed, ∃ v, d.securityCheck = some v ∧ v.safe = true) ∧
      r.committed = (if r.proposed.isEmpty then none
        else some (updateDependenciesInFile r.file r.proposed)) ∧
      (∀ rep, (processRepository false npmOracle pypiOracle sec files).2 = some rep →
        ∀ d ∈ r.outdated, d ∈ rep) := by
  intro r hr
  have hr' : r ∈ (runFiles false npmOracle pypiOracle sec files).1 := hr
  obtain ⟨hck, hp, hcm⟩ := runFiles_spec false npmOracle pypiOracle sec files r hr'
  simp only [Bool.false_eq_true, if_false] at hp
  refine ⟨hp, ?_, hcm, ?_⟩
  · intro d hd
    rw [hp] at hd
    obtain ⟨hmem, hsafe⟩ := List.mem_filter.mp hd
    unfold depIsSafe at hsafe
    cases hsc : d.securityCheck with
    | none => rw [hsc] at hsafe; cases hsafe
    | some v =>
      rw [hsc] at hsafe
      exact ⟨v, rfl, hsafe⟩
  · intro rep hrep d hd
    simp only [processRepository] at hrep
    split at hrep
    · cases hrep
      exact List.mem_flatten.mpr ⟨r.outdated, List.mem_map_of_mem _ hr', hd⟩
    · cases hrep

/-- Witness for C1: one npm manifest with one outdated dependency whose
security oracle call fails (fail-closed unsafe verdict): the proposed set
is the empty safe subset, and the unsafe dependency still reaches the
audit report. -/
theorem processRepository_safe_gating_witness :
    ([] : List DepInfo) =
      [({ name := "b", currentVersion := "^1.0.0", latestVersion := "2.0.0",
          type := "dependency", updateType := "major",
          securityCheck := some
            ⟨false, "Error checking security: down. Skipping update as a precaution."⟩ } :
        DepInfo)].filter depIsSafe ∧
    ({ name := "b", currentVersion := "^1.0.0", latestVersion := "2.0.0",
       type := "dependency", updateType := "major",
       securityCheck := some
         ⟨false, "Error checking security: down. Skipping update as a precaution."⟩ } :
      DepInfo) ∈
      [({ name := "b", currentVersion := "^1.0.0", latestVersion := "2.0.0",
          type := "dependency", updateType := "major",
          securityCheck := some
            ⟨false, "Error checking security: down. Skipping update as a precaution."⟩ } :
        DepInfo)] := by
  have h := processRepository_safe_gating (fun _ => some "2.0.0") (fun _ => none)
      (fun _ _ _ _ => .error "down")
      [⟨"package.json", .npm ⟨[("b", "^1.0.0")], []⟩⟩]
      ⟨⟨"package.json", .npm ⟨[("b", "^1.0.0")], []⟩⟩,
        [⟨"b", "^1.0.0", "2.0.0", "dependency", "major",
          some ⟨false, "Error checking security: down. Skipping update as a precaution."⟩⟩],
        [], none⟩
      (List.mem_singleton.mpr rfl)
  exact ⟨h.1, h.2.2.2 _ rfl _ (List.mem_singleton.mpr rfl)⟩

/-! ### Normalization shape (C4) -/

theorem partToIntString_no_dot (p : String) : '.' ∉ (partToIntString p).data := by
  unfold partToIntString
  split
  · decide
  · intro hm
    have := natToDec_digits _ _ hm
    simp at this

/-- C4 amended: both normalizers strip to digits and dots and preserve
each component's numeric value while dropping leading zeros (keeping a
lone zero), but `sanitizeVersion` performs no padding (the component
count equals that of the stripped string) and maps a falsy input to
itself, while `makeVersionSemverCompatible` right-pads with `"0"` only up
to three components, keeps any extra components, and yields `"0.0.0"`
exactly for a falsy input. -/
theorem normalization_amended (v : String) :
    (v = "" → sanitizeVersion v = "" ∧ makeVersionSemverCompatible v = "0.0.0") ∧
    (v ≠ "" → (splitStr '.' (sanitizeVersion v)).length =
      (splitStr '.' (stripNonDigitDot v)).length) ∧
    (v ≠ "" → (splitStr '.' (makeVersionSemverCompatible v)).length =
      max 3 (splitStr '.' (stripNonDigitDot v)).length) ∧
    numComponents (sanitizeVersion v) =
      (splitStr '.' (stripNonDigitDot v)).map fun p => digitsToNat p.data := by
  refine ⟨?_, ?_, ?_, numComponents_sanitizeVersion v⟩
  · rintro rfl
    exact ⟨rfl, rfl⟩
  · intro hv
    unfold sanitizeVersion
    rw [if_neg hv, splitStr_joinStr '.' _ ?_ ?_]
    · rw [List.length_map]
    · intro p hp
      rcases List.mem_map.mp hp with ⟨q, hq, rfl⟩
      exact sanitizePart_no_dot q (mem_splitStr '.' _ q hq)
    · simp [splitStr_ne_nil]
  · intro hv
    unfold makeVersionSemverCompatible
    rw [if_neg hv, splitStr_joinStr '.' _ ?_ ?_]
    · unfold padTo3
      rw [List.length_append, List.length_replicate, List.length_map]
      omega
    · intro p hp
      unfold padTo3 at hp
      rcases List.mem_append.mp hp with hp | hp
      · rcases List.mem_map.mp hp with ⟨q, _, rfl⟩
        exact partToIntString_no_dot q
      · have hp0 : p = "0" := List.eq_of_mem_replicate hp
        subst hp0; decide
    · unfold padTo3
      intro hcontra
      rcases List.append_eq_nil.mp hcontra with ⟨h1, _⟩
      exact splitStr_ne_nil '.' (stripNonDigitDot v) (List.map_eq_nil_iff.mp h1)

/-- Witness for C4 amended at the empty string and at `"1.2"`. -/
theorem normalization_amended_witness :
    (sanitizeVersion "" = "" ∧ makeVersionSemverCompatible "" = "0.0.0") ∧
    (splitStr '.' (sanitizeVersion "1.2")).length =
      (splitStr '.' (stripNonDigitDot "1.2")).length ∧
    (splitStr '.' (makeVersionSemverCompatible "1.2")).length =
      max 3 (splitStr '.' (stripNonDigitDot "1.2")).length :=
  ⟨(normalization_amended "").1 rfl,
   (normalization_amended "1.2").2.1 (by decide),
   (normalization_amended "1.2").2.2.1 (by decide)⟩

/-! ### Outdatedness decision (C5) -/

theorem dropWhile_ne_nil_of_mem {p : Char → Bool} {l : List Char} {a : Char}
    (ha : a ∈ l) (hpa : p a = false) : l.dropWhile p ≠ [] := by
  induction l with
  | nil => cases ha
  | cons c t ih =>
    rw [List.dropWhile_cons]
    split
    · rcases List.mem_cons.mp ha with rfl | hm
      · rename_i hc
        rw [hpa] at hc
        cases hc
      · exact ih hm
    · simp

theorem nameChar_not_ws {c : Char} (h : isNameChar c = true) : c.isWhitespace = false := by
  by_contra hw
  simp only [Bool.not_eq_false] at hw
  have hc : ((c = ' ' ∨ c = '\t') ∨ c = '\x0d') ∨ c = '\n' := by
    simpa [Char.isWhitespace] using hw
  rcases hc with ((rfl | rfl) | rfl) | rfl <;> simp [isNameChar] at h

theorem mk_ne_empty {l : List Char} (h : l ≠ []) : String.mk l ≠ "" :=
  fun hc => h (congrArg String.data hc)

theorem matchReqLine_spec {line n op ver : String}
    (h : matchReqLine line = some (n, op, ver)) :
    n.data = line.data.takeWhile isNameChar ∧
    op.data = (line.data.dropWhile isNameChar).takeWhile isOpChar ∧
    n.data ≠ [] ∧ op.data ≠ [] ∧
    line.data = n.data ++ op.data ++
      (line.data.dropWhile isNameChar).dropWhile isOpChar := by
  simp only [matchReqLine] at h
  split at h
  · cases h
  · rename_i hcond
    simp only [Bool.or_eq_true, not_or, Bool.not_eq_true, List.isEmpty_eq_true] at hcond
    injection h with h1
    rw [Prod.mk.injEq, Prod.mk.injEq] at h1
    obtain ⟨e1, e2, _⟩ := h1
    subst e1
    subst e2
    refine ⟨rfl, rfl, hcond.1.1, hcond.1.2, ?_⟩
    conv_lhs => rw [← List.takeWhile_append_dropWhile isNameChar line.data]
    rw [List.append_assoc]
    congr 1
    exact (List.takeWhile_append_dropWhile isOpChar _).symm

theorem splitStr_eq_single (sep : Char) (s : String) (h : sep ∉ s.data) :
    splitStr sep s = [s] := by
  unfold splitStr
  simp only [List.splitOn]
  rw [List.splitOnP_eq_single _ _ ?_]
  · rfl
  · intro x hx hpx
    rw [eq_of_beq hpx] at hx
    exact h hx

theorem matchReqLine_not_skipped {line n op ver : String}
    (h : matchReqLine line = some (n, op, ver)) :
    jsTrim line ≠ "" ∧ jsStartsWith line "#" = false := by
  obtain ⟨hn, _, hne, _, hdec⟩ := matchReqLine_spec h
  obtain ⟨c, cs, hcons, hcname⟩ : ∃ c cs, n.data = c :: cs ∧ isNameChar c = true := by
    cases hd : n.data with
    | nil => exact absurd hd hne
    | cons c cs =>
      refine ⟨c, cs, rfl, ?_⟩
      have : c ∈ line.data.takeWhile isNameChar := by
        rw [← hn, hd]; exact List.mem_cons_self c cs
      exact List.mem_takeWhile_imp this
  have hline : ∃ tail, line.data = c :: tail := by
    rw [hdec, hcons]
    exact ⟨cs ++ op.data ++ (line.data.dropWhile isNameChar).dropWhile isOpChar,
      by simp⟩
  obtain ⟨tail, hlc⟩ := hline
  constructor
  · unfold jsTrim
    rw [hlc, List.dropWhile_cons, if_neg (by simp [nameChar_not_ws hcname])]
    apply mk_ne_empty
    intro hcontra
    rw [List.reverse_eq_nil_iff] at hcontra
    exact dropWhile_ne_nil_of_mem (List.mem_reverse.mpr (List.mem_cons_self c tail))
      (nameChar_not_ws hcname) hcontra
  · unfold jsStartsWith
    rw [hlc]
    simp only [List.isPrefixOf]
    have : ('#' == c) = false := by
      by_cases hcc : c = '#'
      · subst hcc; simp [isNameChar] at hcname
      · exact beq_eq_false_iff_ne.mpr fun hcontra => hcc hcontra.symm
    simp [this]

/-- C5 amended: the outdatedness decision is the strict normalized
numeric order, but only on dependencies whose two versions survive the
code's own normalization as `semver`-valid strings (the npm branch feeds
`sanitizeVersion` output, unpadded, to `semver.gt`; the python branch
feeds `makeVersionSemverCompatible` output). On that domain a dependency
produces an update record exactly when the normalized latest strictly
exceeds the normalized current (so equal-after-normalization pairs such
as `1.02.3` versus `1.2.3` never produce a record); outside it the
comparison throws instead of deciding. -/
theorem outdated_iff_gt_amended (dryRun : Bool)
    (npmOracle pypiOracle : String → Option String) (sec : SecOracle) (path : String) :
    (∀ name cur latest : String,
      strContains cur "git" = false → jsStartsWith cur "file:" = false →
      npmOracle name = some latest → latest ≠ "" →
      semverValidCore (sanitizeVersion (stripNonDigitDot cur)) = true →
      semverValidCore (sanitizeVersion latest) = true →
      checkDependencies dryRun npmOracle pypiOracle sec ⟨path, .npm ⟨[(name, cur)], []⟩⟩ =
        .ok (if tripleGt (verTriple (sanitizeVersion latest))
              (verTriple (sanitizeVersion (stripNonDigitDot cur))) = true
          then [⟨name, cur, latest, npmDepType ⟨[(name, cur)], []⟩ name,
                 getUpdateType (stripNonDigitDot cur) latest,
                 if dryRun then none
                 else some (checkVulnerability sec name (stripNonDigitDot cur) latest "npm")⟩]
          else [])) ∧
    (∀ line n op ver latest : String,
      '\n' ∉ line.data → matchReqLine line = some (n, op, ver) →
      pypiOracle n = some latest → latest ≠ "" →
      semverValidCore (makeVersionSemverCompatible ver) = true →
      semverValidCore (makeVersionSemverCompatible latest) = true →
      checkDependencies dryRun npmOracle pypiOracle sec ⟨path, .python line⟩ =
        .ok (if tripleGt (verTriple (makeVersionSemverCompatible latest))
              (verTriple (makeVersionSemverCompatible ver)) = true
          then [⟨n, op ++ ver, latest, "dependency", getUpdateType ver latest,
                 if dryRun then none
                 else some (checkVulnerability sec n ver latest "pypi")⟩]
          else [])) := by
  constructor
  · intro name cur latest hg hf ho hne hv1 hv2
    have hmerge : mergeDeps [(name, cur)] [] = [(name, cur)] := by
      simp [mergeDeps]
    simp only [checkDependencies]
    rw [hmerge]
    simp only [npmDepsLoop, hg, hf, Bool.or_self, Bool.false_eq_true, if_false, ho]
    rw [if_neg hne]
    have hsg : semverGt (sanitizeVersion latest) (sanitizeVersion (stripNonDigitDot cur)) =
        .ok (tripleGt (verTriple (sanitizeVersion latest))
          (verTriple (sanitizeVersion (stripNonDigitDot cur)))) := by
      unfold semverGt
      rw [if_pos (by rw [hv2, hv1]; rfl)]
    simp only [hsg]
    cases hgtb : tripleGt (verTriple (sanitizeVersion latest))
        (verTriple (sanitizeVersion (stripNonDigitDot cur))) with
    | true => simp [npmDepsLoop, Except.map]
    | false => simp [npmDepsLoop]
  · intro line n op ver latest hnl hmatch ho hne hv1 hv2
    obtain ⟨htrim, hhash⟩ := matchReqLine_not_skipped hmatch
    simp only [checkDependencies, splitStr_eq_single '\n' line hnl]
    simp only [pyDepsLoop]
    rw [if_neg (by simp [htrim, hhash])]
    simp only [hmatch, ho]
    rw [if_neg hne]
    have hsg : semverGt (makeVersionSemverCompatible latest) (makeVersionSemverCompatible ver) =
        .ok (tripleGt (verTriple (makeVersionSemverCompatible latest))
          (verTriple (makeVersionSemverCompatible ver))) := by
      unfold semverGt
      rw [if_pos (by rw [hv2, hv1]; rfl)]
    simp only [hsg]
    cases hgtb : tripleGt (verTriple (makeVersionSemverCompatible latest))
        (verTriple (makeVersionSemverCompatible ver)) with
    | true => simp [pyDepsLoop, Except.map]
    | false => simp [pyDepsLoop]

/-- Witness for C5 amended: the leading-zero pair `1.02.3` versus `1.2.3`
produces no npm record (equal after normalization), and the python pair
`1.0.0` versus `1.2.0` produces exactly one record. -/
theorem outdated_iff_gt_amended_witness :
    checkDependencies true (fun _ => some "1.2.3") (fun _ => some "1.2.0")
        (fun _ _ _ _ => .error "na")
        ⟨"m", .npm ⟨[("p", "1.02.3")], []⟩⟩ = .ok [] ∧
    checkDependencies true (fun _ => some "1.2.3") (fun _ => some "1.2.0")
        (fun _ _ _ _ => .error "na")
        ⟨"m", .python "flask==1.0.0"⟩ =
      .ok [⟨"flask", "==1.0.0", "1.2.0", "dependency",
            getUpdateType "1.0.0" "1.2.0", none⟩] :=
  ⟨(outdated_iff_gt_amended true (fun _ => some "1.2.3") (fun _ => some "1.2.0")
      (fun _ _ _ _ => .error "na") "m").1 "p" "1.02.3" "1.2.3"
      (by decide) (by decide) rfl (by decide) (by decide) (by decide),
   (outdated_iff_gt_amended true (fun _ => some "1.2.3") (fun _ => some "1.2.0")
      (fun _ _ _ _ => .error "na") "m").2 "flask==1.0.0" "flask" "==" "1.0.0" "1.2.0"
      (by decide) rfl rfl (by decide) (by decide) (by decide)⟩

/-! ### Manifest rewrite machinery (C7, C8) -/

theorem takeWhile_append_of_all {p : Char → Bool} {xs ys : List Char}
    (h : ∀ a ∈ xs, p a = true) :
    (xs ++ ys).takeWhile p = xs ++ ys.takeWhile p := by
  induction xs with
  | nil => simp
  | cons c t ih =>
    rw [List.cons_append, List.takeWhile_cons, if_pos (h c (List.mem_cons_self c t)),
      ih fun a ha => h a (List.mem_cons_of_mem c ha), List.cons_append]

theorem dropWhile_append_of_all {p : Char → Bool} {xs ys : List Char}
    (h : ∀ a ∈ xs, p a = true) :
    (xs ++ ys).dropWhile p = ys.dropWhile p := by
  induction xs with
  | nil => simp
  | cons c t ih =>
    rw [List.cons_append, List.dropWhile_cons, if_pos (h c (List.mem_cons_self c t))]
    exact ih fun a ha => h a (List.mem_cons_of_mem c ha)

theorem takeWhile_eq_nil_of_head {p : Char → Bool} {ys : List Char}
    (h : ∀ c, ys.head? = some c → p c = false) : ys.takeWhile p = [] := by
  cases ys with
  | nil => rfl
  | cons c t => rw [List.takeWhile_cons, if_neg (by simp [h c rfl])]

theorem dropWhile_eq_self_of_head {p : Char → Bool} {ys : List Char}
    (h : ∀ c, ys.head? = some c → p c = false) : ys.dropWhile p = ys := by
  cases ys with
  | nil => rfl
  | cons c t => rw [List.dropWhile_cons, if_neg (by simp [h c rfl])]

theorem opChar_not_nameChar {c : Char} (h : isOpChar c = true) : isNameChar c = false := by
  have hc : (((c = '<' ∨ c = '>') ∨ c = '=') ∨ c = '!') ∨ c = '~' := by
    simpa [isOpChar] using h
  rcases hc with (((rfl | rfl) | rfl) | rfl) | rfl <;> decide

theorem not_skipped_of_head {line : String} {c : Char} {rest : List Char}
    (hlc : line.data = c :: rest) (hc : isNameChar c = true) :
    jsTrim line ≠ "" ∧ jsStartsWith line "#" = false := by
  constructor
  · unfold jsTrim
    rw [hlc, List.dropWhile_cons, if_neg (by simp [nameChar_not_ws hc])]
    apply mk_ne_empty
    intro hcontra
    rw [List.reverse_eq_nil_iff] at hcontra
    exact dropWhile_ne_nil_of_mem (List.mem_reverse.mpr (List.mem_cons_self c rest))
      (nameChar_not_ws hc) hcontra
  · unfold jsStartsWith
    rw [hlc]
    simp only [List.isPrefixOf]
    have hne : ('#' == c) = false := by
      by_cases hcc : c = '#'
      · subst hcc; simp [isNameChar] at hc
      · exact beq_eq_false_iff_ne.mpr fun hcontra => hcc hcontra.symm
    simp [hne]

theorem matchReqLine_concat (n op lv : String)
    (hn1 : n.data ≠ []) (hn2 : ∀ c ∈ n.data, isNameChar c = true)
    (hop1 : op.data ≠ []) (hop2 : ∀ c ∈ op.data, isOpChar c = true)
    (hlv : ∀ c, lv.data.head? = some c → isOpChar c = false) :
    matchReqLine (n ++ op ++ lv) =
      if (lv.data.takeWhile isNameChar).isEmpty then none
      else some (n, op, String.mk (lv.data.takeWhile isNameChar)) := by
  have hdata : (n ++ op ++ lv).data = n.data ++ (op.data ++ lv.data) := by
    simp [String.data_append]
  have hophead : ∀ c, (op.data ++ lv.data).head? = some c → isNameChar c = false := by
    intro c hcc
    cases hop : op.data with
    | nil => exact absurd hop hop1
    | cons c0 t =>
      rw [hop, List.cons_append] at hcc
      simp only [List.head?_cons, Option.some.injEq] at hcc
      subst hcc
      exact opChar_not_nameChar (hop2 _ (by rw [hop]; exact List.mem_cons_self _ t))
  have h1 : (n ++ op ++ lv).data.takeWhile isNameChar = n.data := by
    rw [hdata, takeWhile_append_of_all hn2, takeWhile_eq_nil_of_head hophead,
      List.append_nil]
  have h2 : (n ++ op ++ lv).data.dropWhile isNameChar = op.data ++ lv.data := by
    rw [hdata, dropWhile_append_of_all hn2, dropWhile_eq_self_of_head hophead]
  have h3 : (op.data ++ lv.data).takeWhile isOpChar = op.data := by
    rw [takeWhile_append_of_all hop2, takeWhile_eq_nil_of_head hlv, List.append_nil]
  have h4 : (op.data ++ lv.data).dropWhile isOpChar = lv.data := by
    rw [dropWhile_append_of_all hop2, dropWhile_eq_self_of_head hlv]
  have hne1 : n.data.isEmpty = false := by
    cases hd : n.data with
    | nil => exact absurd hd hn1
    | cons _ _ => rfl
  have hne2 : op.data.isEmpty = false := by
    cases hd : op.data with
    | nil => exact absurd hd hop1
    | cons _ _ => rfl
  simp only [matchReqLine, h1, h2, h3, h4, hne1, hne2, Bool.false_or, mk_data]

theorem rewriteLine_shape (deps : List DepInfo) (line : String) :
    rewriteLine deps line = line ∨
      ∃ nm o ver dep, matchReqLine line = some (nm, o, ver) ∧
        deps.find? (fun d => d.name == nm) = some dep ∧
        rewriteLine deps line = nm ++ o ++ dep.latestVersion := by
  unfold rewriteLine
  split
  · exact Or.inl rfl
  · split
    · exact Or.inl rfl
    · rename_i nm o ver heq
      split
      · rename_i dep hfind
        exact Or.inr ⟨nm, o, ver, dep, heq, hfind, rfl⟩
      · exact Or.inl rfl

theorem rewriteLine_no_newline (deps : List DepInfo)
    (hds : ∀ d ∈ deps, '\n' ∉ d.latestVersion.data) (line : String)
    (hline : '\n' ∉ line.data) : '\n' ∉ (rewriteLine deps line).data := by
  rcases rewriteLine_shape deps line with heq | ⟨nm, o, ver, dep, hmatch, hfind, heq⟩
  · rw [heq]; exact hline
  · rw [heq]
    obtain ⟨hnm, hosp, _, _, _⟩ := matchReqLine_spec hmatch
    intro hmem
    have hd : (nm ++ o ++ dep.latestVersion).data =
        nm.data ++ (o.data ++ dep.latestVersion.data) := by
      simp [String.data_append]
    rw [hd] at hmem
    rcases List.mem_append.mp hmem with h | h
    · rw [hnm] at h
      have := List.mem_takeWhile_imp h
      simp [isNameChar] at this
    · rcases List.mem_append.mp h with h | h
      · rw [hosp] at h
        have := List.mem_takeWhile_imp h
        simp [isOpChar] at this
      · exact hds dep (List.mem_of_find?_eq_some hfind) h

theorem rewriteLine_idem (deps : List DepInfo)
    (hds : ∀ d ∈ deps, ∀ c, d.latestVersion.data.head? = some c → isOpChar c = false)
    (line : String) :
    rewriteLine deps (rewriteLine deps line) = rewriteLine deps line := by
  rcases rewriteLine_shape deps line with heq | ⟨nm, o, ver, dep, hmatch, hfind, heq⟩
  · rw [heq]
    exact heq
  · rw [heq]
    obtain ⟨hnm, hosp, hnne, hone, _⟩ := matchReqLine_spec hmatch
    have hn2 : ∀ c ∈ nm.data, isNameChar c = true := by
      intro c hc; rw [hnm] at hc; exact List.mem_takeWhile_imp hc
    have ho2 : ∀ c ∈ o.data, isOpChar c = true := by
      intro c hc; rw [hosp] at hc; exact List.mem_takeWhile_imp hc
    have hdep := hds dep (List.mem_of_find?_eq_some hfind)
    have hconcat := matchReqLine_concat nm o dep.latestVersion hnne hn2 hone ho2 hdep
    obtain ⟨c0, cs0, hc0⟩ : ∃ c0 cs0, nm.data = c0 :: cs0 := by
      cases hd : nm.data with
      | nil => exact absurd hd hnne
      | cons a b => exact ⟨a, b, rfl⟩
    have hline' : (nm ++ o ++ dep.latestVersion).data =
        c0 :: (cs0 ++ (o.data ++ dep.latestVersion.data)) := by
      simp [String.data_append, hc0]
    have hguard := not_skipped_of_head hline'
      (hn2 c0 (by rw [hc0]; exact List.mem_cons_self c0 cs0))
    unfold rewriteLine
    rw [if_neg (by simp [hguard.1, hguard.2]), hconcat]
    by_cases hver : ((dep.latestVersion.data).takeWhile isNameChar).isEmpty = true
    · rw [if_pos hver]
    · rw [if_neg hver]
      simp only [hfind]

theorem lookup_eq_of_mem {l : List (String × String)}
    (hl : (l.map Prod.fst).Nodup) {kv : String × String} (h : kv ∈ l) :
    List.lookup kv.1 l = some kv.2 := by
  induction l with
  | nil => cases h
  | cons hd tl ih =>
    obtain ⟨k0, v0⟩ := hd
    rw [List.map_cons] at hl
    have hnodup := List.nodup_cons.mp hl
    rcases List.mem_cons.mp h with rfl | hmem
    · simp [List.lookup]
    · have hne : (kv.1 == k0) = false := by
        apply beq_eq_false_iff_ne.mpr
        intro hcontra
        have hmm2 : kv.1 ∈ tl.map Prod.fst := List.mem_map_of_mem Prod.fst hmem
        rw [hcontra] at hmm2
        exact hnodup.1 hmm2
      simp only [List.lookup, hne]
      exact ih hnodup.2 hmem

theorem lookup_mem {l : List (String × String)} {k v : String}
    (h : List.lookup k l = some v) : (k, v) ∈ l := by
  induction l with
  | nil => cases h
  | cons hd tl ih =>
    obtain ⟨k0, v0⟩ := hd
    by_cases hk : (k == k0) = true
    · simp only [List.lookup, hk] at h
      cases h
      rw [eq_of_beq hk]
      exact List.mem_cons_self _ _
    · rw [Bool.not_eq_true] at hk
      simp only [List.lookup, hk] at h
      exact List.mem_cons_of_mem _ (ih h)

theorem entryStep_empty (cat : String) (d : DepInfo) (k : String) :
    entryStep cat d k "" = "" := by
  unfold entryStep
  rw [if_neg]
  simp

theorem entryStep_of_match {cat : String} {d : DepInfo} {k v : String}
    (hcond : ((d.type == cat && d.name == k) : Bool) = true) (hv : v ≠ "") :
    entryStep cat d k v = leadingNonDigits d.currentVersion ++ d.latestVersion := by
  unfold entryStep
  rw [if_pos]
  simp [hcond, hv]

theorem entryStep_no_match {cat : String} {d : DepInfo} {k v : String}
    (hcond : ((d.type == cat && d.name == k) : Bool) = false) :
    entryStep cat d k v = v := by
  unfold entryStep
  rw [if_neg]
  simp [hcond]

theorem entryChain_empty (cat : String) (ds : List DepInfo) (k : String) :
    entryChain cat ds k "" = "" := by
  induction ds with
  | nil => rfl
  | cons d t ih =>
    show entryChain cat t k (entryStep cat d k "") = ""
    rw [entryStep_empty]
    exact ih

theorem entryChain_of_no_match (cat : String) (ds : List DepInfo) (k : String)
    (h : ∀ d ∈ ds, ((d.type == cat && d.name == k) : Bool) = false) :
    ∀ v, entryChain cat ds k v = v := by
  induction ds with
  | nil => intro v; rfl
  | cons d t ih =>
    intro v
    show entryChain cat t k (entryStep cat d k v) = v
    rw [entryStep_no_match (h d (List.mem_cons_self d t))]
    exact ih (fun e he => h e (List.mem_cons_of_mem d he)) v

theorem entryChain_idem (cat : String) (ds : List DepInfo) (k : String) :
    ∀ v, entryChain cat ds k (entryChain cat ds k v) = entryChain cat ds k v := by
  induction ds with
  | nil => intro v; rfl
  | cons d t ih =>
    intro v
    show entryChain cat t k (entryStep cat d k (entryChain cat t k (entryStep cat d k v))) =
      entryChain cat t k (entryStep cat d k v)
    by_cases hrE : entryChain cat t k (entryStep cat d k v) = ""
    · rw [hrE, entryStep_empty, entryChain_empty]
    · by_cases hcond : ((d.type == cat && d.name == k) : Bool) = true
      · rw [entryStep_of_match hcond hrE]
        by_cases hvE : v = ""
        · exfalso
          apply hrE
          rw [hvE, entryStep_empty, entryChain_empty]
        · rw [← entryStep_of_match hcond hvE]
      · rw [Bool.not_eq_true] at hcond
        rw [entryStep_no_match hcond, entryStep_no_match hcond]
        exact ih v

theorem applyNpmDep_entrywise (p : PackageJson) (d : DepInfo)
    (h1 : (p.dependencies.map Prod.fst).Nodup)
    (h2 : (p.devDependencies.map Prod.fst).Nodup) :
    (applyNpmDep p d).dependencies =
      p.dependencies.map (fun kv => (kv.1, entryStep "dependency" d kv.1 kv.2)) ∧
    (applyNpmDep p d).devDependencies =
      p.devDependencies.map (fun kv => (kv.1, entryStep "devDependency" d kv.1 kv.2)) := by
  have hsetKey : ∀ l : List (String × String), (l.map Prod.fst).Nodup →
      ∀ cat : String, (d.type == cat) = true → truthyLookup l d.name = true →
      setKey l d.name (leadingNonDigits d.currentVersion ++ d.latestVersion) =
        l.map (fun kv => (kv.1, entryStep cat d kv.1 kv.2)) := by
    intro l hl cat htype htruthy
    unfold setKey
    apply List.map_congr_left
    intro kv hkv
    by_cases hk : kv.1 = d.name
    · have hlk := lookup_eq_of_mem hl hkv
      rw [hk] at hlk
      have htr : kv.2 ≠ "" := by
        unfold truthyLookup at htruthy
        simp only [hlk] at htruthy
        simpa using htruthy
      rw [if_pos hk, entryStep_of_match (by simp [htype, hk]) htr, hk]
    · rw [if_neg hk,
        entryStep_no_match (by simp [beq_eq_false_iff_ne.mpr fun hc => hk hc.symm])]
  have hid : ∀ l : List (String × String), (l.map Prod.fst).Nodup →
      ∀ cat : String, ((d.type == cat) = false ∨ truthyLookup l d.name = false) →
      l.map (fun kv => (kv.1, entryStep cat d kv.1 kv.2)) = l := by
    intro l hl cat hcase
    have hpt : ∀ kv ∈ l, ((fun kv : String × String =>
        (kv.1, entryStep cat d kv.1 kv.2)) kv) = id kv := by
      intro kv hkv
      show (kv.1, entryStep cat d kv.1 kv.2) = kv
      rcases hcase with htype | htruthy
      · rw [entryStep_no_match (by simp [htype])]
      · by_cases hcond : ((d.type == cat && d.name == kv.1) : Bool) = true
        · have hk : kv.1 = d.name :=
            (eq_of_beq (Bool.and_eq_true _ _ |>.mp hcond).2).symm
          have hlk := lookup_eq_of_mem hl hkv
          rw [hk] at hlk
          have hv2 : kv.2 = "" := by
            unfold truthyLookup at htruthy
            simp only [hlk] at htruthy
            simpa using htruthy
          rw [hv2, entryStep_empty, ← hv2]
        · rw [Bool.not_eq_true] at hcond
          rw [entryStep_no_match hcond]
    rw [List.map_congr_left hpt, List.map_id]
  simp only [applyNpmDep]
  by_cases hA : (d.type == "dependency" && truthyLookup p.dependencies d.name) = true
  · rw [if_pos hA]
    obtain ⟨htype, htruthy⟩ := Bool.and_eq_true _ _ |>.mp hA
    have hdv : (d.type == "devDependency") = false := by
      rw [eq_of_beq htype]
      decide
    exact ⟨hsetKey p.dependencies h1 "dependency" htype htruthy,
      (hid p.devDependencies h2 "devDependency" (Or.inl hdv)).symm⟩
  · rw [if_neg hA]
    by_cases hB : (d.type == "devDependency" && truthyLookup p.devDependencies d.name) = true
    · rw [if_pos hB]
      obtain ⟨htype, htruthy⟩ := Bool.and_eq_true _ _ |>.mp hB
      have hdp : (d.type == "dependency") = false := by
        rw [eq_of_beq htype]
        decide
      exact ⟨(hid p.dependencies h1 "dependency" (Or.inl hdp)).symm,
        hsetKey p.devDependencies h2 "devDependency" htype htruthy⟩
    · rw [if_neg hB]
      rw [Bool.not_eq_true, Bool.and_eq_false_iff] at hA hB
      exact ⟨(hid p.dependencies h1 "dependency" hA).symm,
        (hid p.devDependencies h2 "devDependency" hB).symm⟩

theorem foldl_applyNpmDep_entrywise (ds : List DepInfo) :
    ∀ p : PackageJson, (p.dependencies.map Prod.fst).Nodup →
      (p.devDependencies.map Prod.fst).Nodup →
      (ds.foldl applyNpmDep p).dependencies =
        p.dependencies.map (fun kv => (kv.1, entryChain "dependency" ds kv.1 kv.2)) ∧
      (ds.foldl applyNpmDep p).devDependencies =
        p.devDependencies.map (fun kv => (kv.1, entryChain "devDependency" ds kv.1 kv.2)) := by
  induction ds with
  | nil =>
    intro p h1 h2
    constructor <;> exact (List.map_id'' (fun kv => rfl) _).symm
  | cons d t ih =>
    intro p h1 h2
    rw [List.foldl_cons]
    have ha := applyNpmDep_entrywise p d h1 h2
    have h1' : ((applyNpmDep p d).dependencies.map Prod.fst).Nodup := by
      rw [ha.1, List.map_map]
      exact h1
    have h2' : ((applyNpmDep p d).devDependencies.map Prod.fst).Nodup := by
      rw [ha.2, List.map_map]
      exact h2
    obtain ⟨hd1, hd2⟩ := ih (applyNpmDep p d) h1' h2'
    rw [hd1, hd2, ha.1, ha.2, List.map_map, List.map_map]
    exact ⟨rfl, rfl⟩

theorem packageJson_ext {a b : PackageJson}
    (h1 : a.dependencies = b.dependencies)
    (h2 : a.devDependencies = b.devDependencies) : a = b := by
  cases a
  cases b
  cases h1
  cases h2
  rfl

/-- C7 amended: manifest rewriting is idempotent for npm manifests (whose
JSON object keys are unique), and for python manifests whenever no
approved update's new version contains a newline or begins with an
operator character — realistic registry versions always satisfy this. A
new version containing a newline breaks idempotence (see the
counterexample), so the unconditional claim is amended to this domain. -/
theorem rewrite_idempotent_amended (f : PackageFile) (ds : List DepInfo)
    (hnpm : ∀ p, f.content = .npm p →
      (p.dependencies.map Prod.fst).Nodup ∧ (p.devDependencies.map Prod.fst).Nodup)
    (hpy : ∀ d ∈ ds, '\n' ∉ d.latestVersion.data ∧
      ∀ c, d.latestVersion.data.head? = some c → isOpChar c = false) :
    updateDependenciesInFile ⟨f.path, updateDependenciesInFile f ds⟩ ds =
      updateDependenciesInFile f ds := by
  obtain ⟨path, content⟩ := f
  cases content with
  | npm p =>
    obtain ⟨h1, h2⟩ := hnpm p rfl
    simp only [updateDependenciesInFile]
    congr 1
    have hA := foldl_applyNpmDep_entrywise ds p h1 h2
    have h1' : ((ds.foldl applyNpmDep p).dependencies.map Prod.fst).Nodup := by
      rw [hA.1, List.map_map]
      exact h1
    have h2' : ((ds.foldl applyNpmDep p).devDependencies.map Prod.fst).Nodup := by
      rw [hA.2, List.map_map]
      exact h2
    have hB := foldl_applyNpmDep_entrywise ds (ds.foldl applyNpmDep p) h1' h2'
    apply packageJson_ext
    · rw [hB.1, hA.1, List.map_map]
      apply List.map_congr_left
      intro kv _
      show (kv.1, entryChain "dependency" ds kv.1 (entryChain "dependency" ds kv.1 kv.2)) =
        (kv.1, entryChain "dependency" ds kv.1 kv.2)
      rw [entryChain_idem]
    · rw [hB.2, hA.2, List.map_map]
      apply List.map_congr_left
      intro kv _
      show (kv.1, entryChain "devDependency" ds kv.1 (entryChain "devDependency" ds kv.1 kv.2)) =
        (kv.1, entryChain "devDependency" ds kv.1 kv.2)
      rw [entryChain_idem]
  | python content =>
    simp only [updateDependenciesInFile]
    congr 1
    have hlines : ∀ l ∈ (splitStr '\n' content).map (rewriteLine ds), '\n' ∉ l.data := by
      intro l hl
      rcases List.mem_map.mp hl with ⟨l0, hl0, rfl⟩
      exact rewriteLine_no_newline ds (fun d hd => (hpy d hd).1) l0
        (mem_splitStr '\n' content l0 hl0)
    rw [splitStr_joinStr '\n' _ hlines (by simp [splitStr_ne_nil]), List.map_map]
    congr 1
    apply List.map_congr_left
    intro l _
    exact rewriteLine_idem ds (fun d hd => (hpy d hd).2) l

/-- Witness for C7 amended: a concrete python manifest and a well-formed
approved update; both rewrite applications agree. -/
theorem rewrite_idempotent_amended_witness :
    updateDependenciesInFile ⟨"requirements.txt",
        updateDependenciesInFile ⟨"requirements.txt", .python "flask==1.0.0"⟩
          [⟨"flask", "==1.0.0", "1.2.0", "dependency", "minor", none⟩]⟩
      [⟨"flask", "==1.0.0", "1.2.0", "dependency", "minor", none⟩] =
    updateDependenciesInFile ⟨"requirements.txt", .python "flask==1.0.0"⟩
      [⟨"flask", "==1.0.0", "1.2.0", "dependency", "minor", none⟩] :=
  rewrite_idempotent_amended ⟨"requirements.txt", .python "flask==1.0.0"⟩
    [⟨"flask", "==1.0.0", "1.2.0", "dependency", "minor", none⟩]
    (by intro p h; simp at h)
    (by
      intro d hd
      rw [List.mem_singleton] at hd
      subst hd
      refine ⟨by decide, ?_⟩
      intro c hc
      simp only [List.head?_cons, Option.some.injEq] at hc
      subst hc
      decide)

theorem entryChain_unique_match (cat : String) {ds : List DepInfo} {k : String}
    {d : DepInfo} (hd : d ∈ ds) (hnodup : (ds.map DepInfo.name).Nodup)
    (hmatch : ((d.type == cat && d.name == k) : Bool) = true) :
    ∀ v, entryChain cat ds k v = entryStep cat d k v := by
  have hk : d.name = k := eq_of_beq (Bool.and_eq_true _ _ |>.mp hmatch).2
  induction ds with
  | nil => cases hd
  | cons e t ih =>
    intro v
    rw [List.map_cons] at hnodup
    have hnd := List.nodup_cons.mp hnodup
    show entryChain cat t k (entryStep cat e k v) = entryStep cat d k v
    rcases List.mem_cons.mp hd with rfl | hmem
    · apply entryChain_of_no_match
      intro x hx
      have hxname : x.name ≠ d.name := by
        intro hc
        exact hnd.1 (hc ▸ List.mem_map_of_mem DepInfo.name hx)
      have : (x.name == k) = false := by
        apply beq_eq_false_iff_ne.mpr
        rw [← hk]
        exact hxname
      simp [this]
    · have hene : e.name ≠ d.name := by
        intro hc
        exact hnd.1 (hc ▸ List.mem_map_of_mem DepInfo.name hmem)
      have hstep : entryStep cat e k v = v := by
        apply entryStep_no_match
        have : (e.name == k) = false := by
          apply beq_eq_false_iff_ne.mpr
          rw [← hk]
          exact hene
        simp [this]
      rw [hstep]
      exact ih hmem hnd.2 v

/-- C8 amended: manifest rewriting is a frame operation. For npm (with the
manifest's unique object keys), the rewrite preserves the key lists of
both categories; an entry whose name has no approved update keeps its
value, and an approved, present, truthy entry of the matching category is
set to the original leading non-digit prefix operator followed by the new
bare version. For python, the output lines are exactly the input lines
mapped by the per-line rewrite, which leaves a line unchanged unless it
matches the requirement grammar with an approved name, and replaces a
matched approved line wholesale by name, original operator and new
version — dropping any text after the matched version segment (see the
counterexample), rather than replacing only the version segment. -/
theorem rewrite_frame_amended (f : PackageFile) (ds : List DepInfo) :
    (∀ p, f.content = .npm p →
      (p.dependencies.map Prod.fst).Nodup → (p.devDependencies.map Prod.fst).Nodup →
      ∃ q, updateDependenciesInFile f ds = .npm q ∧
        q.dependencies.map Prod.fst = p.dependencies.map Prod.fst ∧
        q.devDependencies.map Prod.fst = p.devDependencies.map Prod.fst ∧
        (∀ kv ∈ p.dependencies, (∀ d ∈ ds, d.name ≠ kv.1) →
          List.lookup kv.1 q.dependencies = some kv.2) ∧
        (∀ kv ∈ p.devDependencies, (∀ d ∈ ds, d.name ≠ kv.1) →
          List.lookup kv.1 q.devDependencies = some kv.2) ∧
        ((ds.map DepInfo.name).Nodup →
          ∀ d ∈ ds, d.type = "dependency" →
          ∀ v, List.lookup d.name p.dependencies = some v → v ≠ "" →
          List.lookup d.name q.dependencies =
            some (leadingNonDigits d.currentVersion ++ d.latestVersion))) ∧
    (∀ content, f.content = .python content →
      (∀ d ∈ ds, '\n' ∉ d.latestVersion.data) →
      ∃ out, updateDependenciesInFile f ds = .python out ∧
        splitStr '\n' out = (splitStr '\n' content).map (rewriteLine ds) ∧
        (∀ line, matchReqLine line = none → rewriteLine ds line = line) ∧
        (∀ line nm o ver, matchReqLine line = some (nm, o, ver) →
          ds.find? (fun d => d.name == nm) = none → rewriteLine ds line = line) ∧
        (∀ line nm o ver dep, matchReqLine line = some (nm, o, ver) →
          ds.find? (fun d => d.name == nm) = some dep →
          rewriteLine ds line = nm ++ o ++ dep.latestVersion)) := by
  constructor
  · intro p hcontent h1 h2
    obtain ⟨path, content⟩ := f
    cases hcontent
    refine ⟨ds.foldl applyNpmDep p, rfl, ?_, ?_, ?_, ?_, ?_⟩
    all_goals have hA := foldl_applyNpmDep_entrywise ds p h1 h2
    · rw [hA.1, List.map_map]
      rfl
    · rw [hA.2, List.map_map]
      rfl
    · intro kv hkv hno
      have hch : entryChain "dependency" ds kv.1 kv.2 = kv.2 := by
        apply entryChain_of_no_match
        · intro d hd
          simp [beq_eq_false_iff_ne.mpr (hno d hd)]
      have hmem' := List.mem_map_of_mem
        (fun kv : String × String => (kv.1, entryChain "dependency" ds kv.1 kv.2)) hkv
      have hlk := lookup_eq_of_mem (l := p.dependencies.map
        (fun kv => (kv.1, entryChain "dependency" ds kv.1 kv.2)))
        (by rw [List.map_map]; exact h1) hmem'
      rw [hA.1]
      simpa [hch] using hlk
    · intro kv hkv hno
      have hch : entryChain "devDependency" ds kv.1 kv.2 = kv.2 := by
        apply entryChain_of_no_match
        · intro d hd
          simp [beq_eq_false_iff_ne.mpr (hno d hd)]
      have hmem' := List.mem_map_of_mem
        (fun kv : String × String => (kv.1, entryChain "devDependency" ds kv.1 kv.2)) hkv
      have hlk := lookup_eq_of_mem (l := p.devDependencies.map
        (fun kv => (kv.1, entryChain "devDependency" ds kv.1 kv.2)))
        (by rw [List.map_map]; exact h2) hmem'
      rw [hA.2]
      simpa [hch] using hlk
    · intro hnodup d hd htype v hlkp hv
      have hbeq : ((d.type == "dependency" && d.name == d.name) : Bool) = true := by
        simp [htype]
      have hch : entryChain "dependency" ds d.name v =
          leadingNonDigits d.currentVersion ++ d.latestVersion := by
        rw [entryChain_unique_match "dependency" hd hnodup hbeq v,
          entryStep_of_match hbeq hv]
      have hkv : (d.name, v) ∈ p.dependencies := lookup_mem hlkp
      have hmem' := List.mem_map_of_mem
        (fun kv : String × String => (kv.1, entryChain "dependency" ds kv.1 kv.2)) hkv
      have hlk := lookup_eq_of_mem (l := p.dependencies.map
        (fun kv => (kv.1, entryChain "dependency" ds kv.1 kv.2)))
        (by rw [List.map_map]; exact h1) hmem'
      rw [hA.1]
      simpa [hch] using hlk
  · intro content hcontent hnl
    obtain ⟨path, fcontent⟩ := f
    cases hcontent
    refine ⟨joinStr '\n' ((splitStr '\n' content).map (rewriteLine ds)), rfl, ?_, ?_, ?_, ?_⟩
    · apply splitStr_joinStr
      · intro l hl
        rcases List.mem_map.mp hl with ⟨l0, hl0, rfl⟩
        exact rewriteLine_no_newline ds hnl l0 (mem_splitStr '\n' content l0 hl0)
      · simp [splitStr_ne_nil]
    · intro line hmatch
      rcases rewriteLine_shape ds line with heq | ⟨nm, o, ver, dep, hm, _, _⟩
      · exact heq
      · rw [hmatch] at hm
        cases hm
    · intro line nm o ver hmatch hfind
      rcases rewriteLine_shape ds line with heq | ⟨nm2, o2, ver2, dep, hm, hf, _⟩
      · exact heq
      · rw [hmatch] at hm
        injection hm with hm
        rw [Prod.mk.injEq, Prod.mk.injEq] at hm
        obtain ⟨e1, _, _⟩ := hm
        rw [← e1, hfind] at hf
        cases hf
    · intro line nm o ver dep hmatch hfind
      have hguard := matchReqLine_not_skipped hmatch
      unfold rewriteLine
      rw [if_neg (by simp [hguard.1, hguard.2])]
      simp only [hmatch, hfind]

/-- Witness for C8 amended: a two-entry npm manifest with one approved
update (the untouched entry keeps its value, the approved entry gets the
prefixed new version) and a python comment line left unchanged. -/
theorem rewrite_frame_amended_witness :
    List.lookup "c" ([("b", "^2.0.0"), ("c", "~3.0.0")] : List (String × String)) =
      some "~3.0.0" ∧
    List.lookup "b" ([("b", "^2.0.0"), ("c", "~3.0.0")] : List (String × String)) =
      some "^2.0.0" ∧
    rewriteLine [⟨"flask", "==1.0.0", "1.2.0", "dependency", "minor", none⟩]
      "# note" = "# note" := by
  obtain ⟨q, hq, _, _, huntouched, _, hchanged⟩ :=
    (rewrite_frame_amended
      ⟨"package.json", .npm ⟨[("b", "^1.0.0"), ("c", "~3.0.0")], []⟩⟩
      [⟨"b", "^1.0.0", "2.0.0", "dependency", "major", none⟩]).1
      ⟨[("b", "^1.0.0"), ("c", "~3.0.0")], []⟩ rfl (by decide) (by decide)
  have hqc : q = ⟨[("b", "^2.0.0"), ("c", "~3.0.0")], []⟩ := by
    have hcomputed : updateDependenciesInFile
        ⟨"package.json", .npm ⟨[("b", "^1.0.0"), ("c", "~3.0.0")], []⟩⟩
        [⟨"b", "^1.0.0", "2.0.0", "dependency", "major", none⟩] =
        .npm ⟨[("b", "^2.0.0"), ("c", "~3.0.0")], []⟩ := rfl
    have htrans := hcomputed.symm.trans hq
    injection htrans with h
    exact h.symm
  obtain ⟨_, _, _, hnone, _, _⟩ :=
    (rewrite_frame_amended ⟨"requirements.txt", .python "# note"⟩
      [⟨"flask", "==1.0.0", "1.2.0", "dependency", "minor", none⟩]).2
      "# note" rfl (by decide)
  refine ⟨?_, ?_, hnone "# note" rfl⟩
  · have := huntouched ("c", "~3.0.0") (by decide)
      (by intro d hd; rw [List.mem_singleton] at hd; subst hd; decide)
    rw [hqc] at this
    exact this
  · have := hchanged (by decide)
      ⟨"b", "^1.0.0", "2.0.0", "dependency", "major", none⟩
      (List.mem_singleton.mpr rfl) rfl "^1.0.0" rfl (by decide)
    rw [hqc] at this
    exact this

end DependencyAiBot
